import Mathlib

/-!
Verification of the co2_forecaster repository: a shallow embedding of
`src/data_prep.py` (date normalizer, series loader) and `src/main.py`
(forecast endpoint) in Lean 4, with theorems settling the specification's
claims about them.

Modelling conventions:
* Python/pandas floats are modelled as exact rationals (`ℚ`);
* a CSV cell after `pd.to_numeric(errors='coerce')` is an `Option ℚ`
  (`none` = NaN);
* `pd.Timestamp` values are proleptic-Gregorian calendar dates
  (year, month, day) in a structure `DateT`;
* a fallible Python function is an `Except` value; an `HTTPException`
  carries a status code and a detail string.
-/

namespace CO2

/-- A calendar date, as (year, month, day), modelling `pd.Timestamp`
at day resolution. -/
structure DateT where
  year : ℕ
  month : ℕ
  day : ℕ
deriving Repr, DecidableEq

/-- Calendar order on dates (lexicographic on year, month, day). -/
def dateLE (a b : DateT) : Prop :=
  a.year < b.year ∨ (a.year = b.year ∧
    (a.month < b.month ∨ (a.month = b.month ∧ a.day ≤ b.day)))

instance (a b : DateT) : Decidable (dateLE a b) := by
  unfold dateLE; infer_instance

/-- Gregorian leap-year rule, as used by `pandas` timestamps. -/
def isLeap (y : ℕ) : Bool :=
  (y % 4 == 0 && y % 100 != 0) || y % 400 == 0

/-- Number of days in a calendar year. -/
def daysInYear (y : ℕ) : ℕ := if isLeap y then 366 else 365

/-- Number of days in month `m` (1-based) of year `y`. -/
def daysInMonth (y m : ℕ) : ℕ :=
  if m = 2 then (if isLeap y then 29 else 28)
  else if m = 4 ∨ m = 6 ∨ m = 9 ∨ m = 11 then 30
  else 31

/-- Walk the months of year `y` starting at month `m`, consuming a
zero-based day offset `r`; returns the (month, day) reached. Structural
on a fuel of remaining month steps; with fuel `11` from January the walk
stops at December at the latest, matching the calendar layout for every
offset below the year length. -/
def monthWalkF (y : ℕ) : ℕ → ℕ → ℕ → ℕ × ℕ
  | 0, m, r => (m, r + 1)
  | fuel + 1, m, r =>
    if r < daysInMonth y m then (m, r + 1)
    else monthWalkF y fuel (m + 1) (r - daysInMonth y m)

/-- Month and day reached from January 1 of year `y` after a zero-based
offset of `r` days (for `r` below the year length). -/
def monthWalk (y r : ℕ) : ℕ × ℕ := monthWalkF y 11 1 r

/-- One year-consuming step of `addDaysJan1`, structural on fuel; fuel
`r / 365 + 1` always suffices since every step consumes at least 365
days. -/
def addDaysJan1F : ℕ → ℕ → ℕ → DateT
  | 0, y, r => ⟨y, 1, r + 1⟩
  | fuel + 1, y, r =>
    if r < daysInYear y then
      let md := monthWalk y r
      ⟨y, md.1, md.2⟩
    else addDaysJan1F fuel (y + 1) (r - daysInYear y)

/-- January 1 of year `y` plus `r` whole days, as a calendar date
(models `pd.to_datetime(f'{year}-01-01') + pd.to_timedelta(r, unit='D')`). -/
def addDaysJan1 (y r : ℕ) : DateT := addDaysJan1F (r / 365 + 1) y r

/-- Truncation toward zero, the semantics of Python `int()` on a float.
Uses the executable `Rat.floor` so that concrete dates evaluate. -/
def truncInt (q : ℚ) : ℤ :=
  if 0 ≤ q then q.floor else -(-q).floor

/-- Round half to even on rationals: the rounding used by
`pd.Timestamp.round('D')`. Modelling caveat: at an exact half-day tie
this breaks the tie by the parity of the within-year day offset, while
pandas applies half-even to the day count since the 1970 epoch; the two
references disagree for years whose January 1 has odd epoch parity. No
theorem below depends on an exact tie — the interval bounds of C4 hold
under either tie-break, and every concrete evaluation is tie-free. -/
def roundHalfEven (q : ℚ) : ℤ :=
  if q - q.floor = 1/2 then (if q.floor % 2 = 0 then q.floor else q.floor + 1)
  else (q + 1/2).floor

/-- The executable `Rat.floor` agrees with the floor of the order
structure. -/
theorem ratFloor_eq_floor (q : ℚ) : q.floor = ⌊q⌋ :=
  (Rat.floor_def' q).trans Rat.floor_def.symm

/-- `decimal_year_to_date` from `src/data_prep.py`: the integer part of
the fractional year is the year, the remainder scaled by `365.25` days is
added to January 1 of that year, and the result is rounded to the nearest
whole day (`.round('D')`, half to even). Inputs whose year or day offset
would be negative are clamped to zero by `Int.toNat`; the source's
behaviour is only specified for positive inputs, where no clamp fires. -/
def decimal_year_to_date (year_decimal : ℚ) : DateT :=
  let year := truncInt year_decimal
  let rem := year_decimal - year
  addDaysJan1 year.toNat (roundHalfEven (rem * ((1461 : ℚ)/4))).toNat

/-! ## Evaluation helpers

ℚ arithmetic is `@[irreducible]` in this toolchain, so concrete values of
`decimal_year_to_date` are obtained through small rewriting lemmas rather
than kernel reduction. -/

/-- Evaluate `Rat.floor` on an explicit fraction. -/
theorem ratFloor_div_eval (n : ℤ) (d : ℕ) :
    (((n : ℚ))/((d : ℕ) : ℚ)).floor = n / (d : ℤ) := by
  rw [ratFloor_eq_floor, Rat.floor_intCast_div_natCast]

/-- `roundHalfEven` away from a tie is floor of the shifted value. -/
theorem roundHalfEven_of_ne (q : ℚ) (h : q - q.floor ≠ 1/2) :
    roundHalfEven q = (q + 1/2).floor := if_neg h

/-- Unfold `decimal_year_to_date` on a nonnegative input whose truncation
and day offset have been computed. -/
theorem decimal_year_to_date_eval (q : ℚ) (y : ℤ) (r : ℤ)
    (hq : 0 ≤ q) (hy : q.floor = y)
    (hr : roundHalfEven ((q - (y : ℚ)) * ((1461 : ℚ)/4)) = r) :
    decimal_year_to_date q = addDaysJan1 y.toNat r.toNat := by
  unfold decimal_year_to_date truncInt
  rw [if_pos hq, hy]
  show addDaysJan1 y.toNat
    (roundHalfEven ((q - (y : ℚ)) * ((1461 : ℚ)/4))).toNat = _
  rw [hr]

/-- Evaluate `roundHalfEven` away from a tie via the shifted floor. -/
theorem roundHalfEven_eval (q : ℚ) (f : ℤ) (hne : q - (q.floor : ℚ) ≠ 1/2)
    (hf : (q + 1/2).floor = f) : roundHalfEven q = f := by
  rw [roundHalfEven_of_ne q hne, hf]

/-- `decimal_year_to_date` on the fractional year `1960.042`. -/
theorem dyd_1960_042 : decimal_year_to_date (mkRat 1960042 1000) = ⟨1960, 1, 16⟩ := by
  rw [decimal_year_to_date_eval (mkRat 1960042 1000) 1960 15
    (by rw [Rat.mkRat_eq_div]; norm_num)
    (by rw [Rat.mkRat_eq_div, Rat.floor_def']; norm_num)
    (by
      rw [show (mkRat 1960042 1000 - ((1960 : ℤ) : ℚ)) * ((1461 : ℚ)/4)
            = (30681 : ℚ)/2000 from by rw [Rat.mkRat_eq_div]; push_cast; norm_num]
      refine roundHalfEven_eval _ _ ?_ ?_
      · rw [Rat.floor_def']; norm_num
      · rw [show (30681 : ℚ)/2000 + 1/2 = (31681 : ℚ)/2000 from by norm_num,
          Rat.floor_def']
        norm_num)]
  decide

/-- `decimal_year_to_date` on the fractional year `1960.125`. -/
theorem dyd_1960_125 : decimal_year_to_date (mkRat 1960125 1000) = ⟨1960, 2, 16⟩ := by
  rw [decimal_year_to_date_eval (mkRat 1960125 1000) 1960 46
    (by rw [Rat.mkRat_eq_div]; norm_num)
    (by rw [Rat.mkRat_eq_div, Rat.floor_def']; norm_num)
    (by
      rw [show (mkRat 1960125 1000 - ((1960 : ℤ) : ℚ)) * ((1461 : ℚ)/4)
            = (1461 : ℚ)/32 from by rw [Rat.mkRat_eq_div]; push_cast; norm_num]
      refine roundHalfEven_eval _ _ ?_ ?_
      · rw [Rat.floor_def']; norm_num
      · rw [show (1461 : ℚ)/32 + 1/2 = (1477 : ℚ)/32 from by norm_num,
          Rat.floor_def']
        norm_num)]
  decide

/-! ## Series loader (`load_and_prep_data` in `src/data_prep.py`)

The tabular source is modelled after `pd.read_csv(..., header=1)` and
`pd.to_numeric(..., errors='coerce')` have acted: a list of data rows,
each a list of cells, where a cell is `some q` when the text coerces to
the rational `q` and `none` when coercion fails (NaN). -/

/-- A raw record: the two cells selected by integer position — column 3
(`Date_Decimal`) and column 4 (`CO2_Raw_ppm`). -/
structure RawRow where
  dateDec : Option ℚ
  co2Raw : Option ℚ
deriving Repr, DecidableEq

/-- Column selection `df_raw.iloc[:, [3, 4]]` on one row. -/
def selectCols (cells : List (Option ℚ)) : RawRow :=
  ⟨cells.getD 3 none, cells.getD 4 none⟩

/-- `Series.ffill` with carry `c`: each NaN entry is replaced by the last
valid value seen so far (or by the carry, when none has been seen). -/
def ffillAux (c : Option ℚ) : List (Option ℚ) → List (Option ℚ)
  | [] => []
  | none :: xs => c :: ffillAux c xs
  | some x :: xs => some x :: ffillAux (some x) xs

/-- `Series.ffill()`: forward-fill with no initial carry. -/
def ffill (l : List (Option ℚ)) : List (Option ℚ) := ffillAux none l

/-- `Series.bfill()`: backward-fill, i.e. forward-fill of the reversal. -/
def bfill (l : List (Option ℚ)) : List (Option ℚ) :=
  (ffillAux none l.reverse).reverse

/-- Step 4 of the loader: `co2_raw.ffill().bfill()`. -/
def fillCO2 (l : List (Option ℚ)) : List (Option ℚ) := bfill (ffill l)

/-- A cleaned observation: a row of the prepared frame restricted to the
columns the claims are about (`Date` and the filled `CO2_ppm`). -/
structure Obs where
  date : DateT
  co2 : ℚ
deriving Repr, DecidableEq

/-- Steps 4–6 of `load_and_prep_data` on the selected rows: forward/
backward fill the concentration column, then drop rows whose
`Date_Decimal` (or filled concentration) is still NaN, then convert each
surviving fractional year to a calendar date. -/
def prepDF (rows : List RawRow) : List Obs :=
  let filled := fillCO2 (rows.map (·.co2Raw))
  (rows.zip filled).filterMap fun rc =>
    match rc.1.dateDec, rc.2 with
    | some d, some c => some ⟨decimal_year_to_date d, c⟩
    | _, _ => none

/-- Minimum of a list of dates relative to a seed (`DatetimeIndex.min`). -/
def dateMinL (a b : DateT) : DateT := if dateLE a b then a else b

/-- Maximum of a list of dates relative to a seed (`DatetimeIndex.max`). -/
def dateMaxL (a b : DateT) : DateT := if dateLE b a then a else b

/-- Serial month number of a (year, month) pair. -/
def monthIndex (y m : ℕ) : ℕ := 12 * y + (m - 1)

/-- The (year, month) pair of a serial month number. -/
def ymOfIndex (k : ℕ) : ℕ × ℕ := (k / 12, k % 12 + 1)

/-- `pd.date_range(a, b, freq='MS')`: every month-start date in the
closed interval `[a, b]`, in increasing order. -/
def monthStarts (a b : DateT) : List DateT :=
  let first := if a.day = 1 then monthIndex a.year a.month
               else monthIndex a.year a.month + 1
  let last := monthIndex b.year b.month
  (List.range (last + 1 - first)).map fun i =>
    ⟨(ymOfIndex (first + i)).1, (ymOfIndex (first + i)).2, 1⟩

/-- Exact-date lookup used by `reindex`: the value at `d`, NaN when `d`
is absent from the frame's index. -/
def lookupDate (obs : List Obs) (d : DateT) : Option ℚ :=
  (obs.find? fun o => o.date = d).map (·.co2)

/-- `set_index('Date')['CO2_ppm'].asfreq('MS')`: reindex the series to
the month-start dates spanning its index, taking values by exact date
match and NaN elsewhere. Follows pandas `asfreq`, which reindexes onto
`date_range(index.min(), index.max(), freq='MS')`. Modelling caveat:
pandas `reindex` raises `ValueError` on duplicate index labels, which
this model does not reproduce — `lookupDate` takes the first match — so
the model accepts tables with duplicate normalized dates that the
program rejects; theorems quantified over accepted tables therefore
cover a slightly larger domain than the program's. -/
def asfreqMS (obs : List Obs) : List (DateT × Option ℚ) :=
  match obs with
  | [] => []
  | o :: rest =>
    let lo := (rest.map (·.date)).foldl dateMinL o.date
    let hi := (rest.map (·.date)).foldl dateMaxL o.date
    (monthStarts lo hi).map fun d => (d, lookupDate (o :: rest) d)

/-- `load_and_prep_data` from `src/data_prep.py` on the data rows of the
source table. Returns the `(ts, df)` pair. The final logging line
formats `ts.index.min()`, which raises `ValueError` (`NaTType does not
support strftime`) whenever the reindexed series is empty, so the
function only returns when at least one month-start falls in the span of
the cleaned dates. -/
def load_and_prep_data (table : List (List (Option ℚ))) :
    Except String (List (DateT × Option ℚ) × List Obs) :=
  let df := prepDF (table.map selectCols)
  let ts := asfreqMS df
  match ts with
  | [] => Except.error "NaTType does not support strftime"
  | _ => Except.ok (ts, df)

/-- Strict calendar order on dates. -/
def dateLT (a b : DateT) : Prop :=
  a.year < b.year ∨ (a.year = b.year ∧
    (a.month < b.month ∨ (a.month = b.month ∧ a.day < b.day)))

instance (a b : DateT) : Decidable (dateLT a b) := by
  unfold dateLT; infer_instance

instance : IsTrans DateT dateLT :=
  ⟨fun a b c h1 h2 => by
    simp only [dateLT] at h1 h2 ⊢
    omega⟩

/-- Number of distinct (year, month) pairs among the cleaned
observations of a source table. -/
def distinctValidMonths (table : List (List (Option ℚ))) : ℕ :=
  (((prepDF (table.map selectCols)).map
      fun o => (o.date.year, o.date.month)).dedup).length

/-! ## Prediction service (`src/main.py`) -/

/-- `ForecastQuery`, the pydantic input schema of the endpoint: an
integer `steps` with default `12` and no further constraint. -/
structure ForecastQuery where
  steps : ℤ
deriving Repr, DecidableEq

/-- Validation of a request body `{steps?: int}` against `ForecastQuery`:
an absent field takes the default `12`; any integer is accepted. -/
def forecastQueryOfBody (body : Option ℤ) : ForecastQuery :=
  ⟨body.getD 12⟩

/-- `ForecastResult`, the output schema of the endpoint. The
`predictions` dict is a key-ordered association list. -/
structure ForecastResult where
  forecast_start_date : String
  forecast_end_date : String
  predictions : List (String × ℚ)
deriving Repr, DecidableEq

/-- An `HTTPException`: status code plus detail string. -/
structure HTTPError where
  status : ℕ
  detail : String
deriving Repr, DecidableEq

/-- The opaque fitted model: `get_forecast(steps)` yields the
`predicted_mean` series — dated predicted values — or raises. -/
def Model : Type := ℤ → Except String (List (DateT × ℚ))

/-- Left-pad a numeral with zeros to width `w` (`strftime` padding). -/
def padNum (w n : ℕ) : String :=
  let s := toString n
  String.mk (List.replicate (w - s.length) '0') ++ s

/-- `date.strftime('%Y-%m-%d')`: the ISO calendar date string. -/
def isoDate (d : DateT) : String :=
  padNum 4 d.year ++ "-" ++ padNum 2 d.month ++ "-" ++ padNum 2 d.day

/-- Python `round(value, 2)`: scale by 100, round half to even, scale
back. -/
def round2 (q : ℚ) : ℚ := ((roundHalfEven (q * 100) : ℤ) : ℚ) / 100

/-- Python dict assignment `d[k] = v`: replaces the value in place when
the key exists, appends otherwise. -/
def dictInsert (k : String) (v : ℚ) : List (String × ℚ) → List (String × ℚ)
  | [] => [(k, v)]
  | kv :: rest =>
    if kv.1 = k then (k, v) :: rest else kv :: dictInsert k v rest

/-- The dict comprehension building `predictions`: ISO date keys, values
rounded to 2 decimal places, in series order. -/
def predictionsDict (ps : List (DateT × ℚ)) : List (String × ℚ) :=
  ps.foldl (fun d p => dictInsert (isoDate p.1) (round2 p.2) d) []

/-- Formatting of a successful forecast inside the `try` block: the dict
comprehension, then `index.min()`/`index.max()` rendered through
`strftime`. On an empty series the index min is `NaT` and `strftime`
raises `ValueError`, which the enclosing `except` turns into a 500. -/
def formatForecast (ps : List (DateT × ℚ)) : Except String ForecastResult :=
  match ps with
  | [] => Except.error "NaTType does not support strftime"
  | p :: rest =>
    Except.ok
      { forecast_start_date := isoDate ((rest.map (·.1)).foldl dateMinL p.1)
        forecast_end_date := isoDate ((rest.map (·.1)).foldl dateMaxL p.1)
        predictions := predictionsDict (p :: rest) }

/-- `get_forecast` from `src/main.py`: 503 when the global model
reference is unset; otherwise the model's forecast is formatted, and any
error raised inside the `try` block becomes a 500 whose detail wraps the
underlying message. -/
def get_forecast (model_fit : Option Model) (query : ForecastQuery) :
    Except HTTPError ForecastResult :=
  match model_fit with
  | none => Except.error ⟨503, "Model is not loaded or ready."⟩
  | some m =>
    match m query.steps with
    | Except.error e => Except.error ⟨500, "Prediction error: " ++ e⟩
    | Except.ok ps =>
      match formatForecast ps with
      | Except.error e => Except.error ⟨500, "Prediction error: " ++ e⟩
      | Except.ok r => Except.ok r

/-! ## Theorems -/

/-- `decimal_year_to_date` with its lets flattened. -/
theorem decimal_year_to_date_def (q : ℚ) :
    decimal_year_to_date q =
      addDaysJan1 (truncInt q).toNat
        (roundHalfEven ((q - ((truncInt q : ℤ) : ℚ)) * ((1461 : ℚ)/4))).toNat :=
  rfl

theorem daysInYear_ge (y : ℕ) : 365 ≤ daysInYear y := by
  unfold daysInYear
  split <;> omega

theorem monthWalkF_bounds (y : ℕ) :
    ∀ fuel m r : ℕ, m ≤ (monthWalkF y fuel m r).1 ∧ 1 ≤ (monthWalkF y fuel m r).2 := by
  intro fuel
  induction fuel with
  | zero => intro m r; exact ⟨le_refl m, Nat.le_add_left 1 r⟩
  | succ k ih =>
    intro m r
    simp only [monthWalkF]
    split
    · exact ⟨le_refl m, Nat.le_add_left 1 r⟩
    · obtain ⟨h1, h2⟩ := ih (m + 1) (r - daysInMonth y m)
      exact ⟨by omega, h2⟩

theorem addDaysJan1_bounds (y r : ℕ) (h : r ≤ 365) :
    dateLE ⟨y, 1, 1⟩ (addDaysJan1 y r) ∧
    dateLE (addDaysJan1 y r) ⟨y + 1, 1, 1⟩ := by
  unfold addDaysJan1
  by_cases hr : r < daysInYear y
  · simp only [addDaysJan1F, if_pos hr]
    obtain ⟨h1, h2⟩ := monthWalkF_bounds y 11 1 r
    constructor
    · simp [dateLE, monthWalk]
      omega
    · simp [dateLE, monthWalk]
  · have hy : daysInYear y = 365 := by
      have := daysInYear_ge y
      omega
    have hr365 : r = 365 := by omega
    subst hr365
    have hfuel : 365 / 365 + 1 = 2 := by norm_num
    rw [hfuel]
    simp only [addDaysJan1F, if_neg hr, hy]
    have hylt : 0 < daysInYear (y + 1) := by
      have := daysInYear_ge (y + 1)
      omega
    norm_num [if_pos hylt]
    have hmw : monthWalk (y + 1) 0 = (1, 1) := by
      have : (0 : ℕ) < daysInMonth (y + 1) 1 := by
        unfold daysInMonth
        norm_num
      simp [monthWalk, monthWalkF, if_pos this]
    constructor
    · simp [dateLE, hmw]
    · simp [dateLE, hmw]

theorem roundHalfEven_nonneg (q : ℚ) (h : 0 ≤ q) : 0 ≤ roundHalfEven q := by
  unfold roundHalfEven
  simp only [ratFloor_eq_floor]
  have hfl : (0 : ℤ) ≤ ⌊q⌋ := Int.floor_nonneg.mpr h
  split_ifs
  · exact hfl
  · omega
  · refine Int.floor_nonneg.mpr ?_
    linarith

theorem roundHalfEven_le_365 (q : ℚ) (h : q < (1461 : ℚ)/4) :
    roundHalfEven q ≤ 365 := by
  unfold roundHalfEven
  simp only [ratFloor_eq_floor]
  split_ifs with h1 h2
  · have hq : (⌊q⌋ : ℚ) < 365 := by linarith
    have : ⌊q⌋ < 365 := by exact_mod_cast hq
    omega
  · have hq : (⌊q⌋ : ℚ) < 365 := by linarith
    have : ⌊q⌋ < 365 := by exact_mod_cast hq
    omega
  · have : ⌊q + 1/2⌋ < 366 := by
      refine Int.floor_lt.mpr ?_
      push_cast
      linarith
    omega

/-- C4: for every positive fractional-year input `q`, the date produced
by `decimal_year_to_date` lies in the closed interval from January 1 of
`⌊q⌋` to January 1 of `⌊q⌋ + 1`: the fractional part scaled by 365.25
days and rounded to the nearest whole day never leaves the year. -/
theorem C4_normalizer_interval (q : ℚ) (h : 0 < q) :
    dateLE ⟨(⌊q⌋).toNat, 1, 1⟩ (decimal_year_to_date q) ∧
    dateLE (decimal_year_to_date q) ⟨(⌊q⌋).toNat + 1, 1, 1⟩ := by
  have h0 : (0 : ℚ) ≤ q := le_of_lt h
  have ht : truncInt q = ⌊q⌋ := by
    unfold truncInt
    rw [if_pos h0, ratFloor_eq_floor]
  rw [decimal_year_to_date_def, ht]
  set x : ℚ := (q - ((⌊q⌋ : ℤ) : ℚ)) * ((1461 : ℚ)/4) with hx
  have hfr0 : (0 : ℚ) ≤ q - ((⌊q⌋ : ℤ) : ℚ) := by
    have := Int.floor_le q
    linarith
  have hfr1 : q - ((⌊q⌋ : ℤ) : ℚ) < 1 := by
    have := Int.lt_floor_add_one q
    linarith
  have hx0 : (0 : ℚ) ≤ x := by
    rw [hx]
    positivity
  have hx1 : x < (1461 : ℚ)/4 := by
    rw [hx]
    nlinarith
  have hr0 := roundHalfEven_nonneg x hx0
  have hr365 := roundHalfEven_le_365 x hx1
  have hrn : (roundHalfEven x).toNat ≤ 365 := by omega
  exact addDaysJan1_bounds (⌊q⌋).toNat (roundHalfEven x).toNat hrn

/-- C4 witness: the interval property at the concrete input `2023.5`
(whose normalized date is July 2, 2023). -/
theorem C4_witness :
    (0 : ℚ) < mkRat 4047 2 ∧
    (dateLE ⟨(⌊(mkRat 4047 2 : ℚ)⌋).toNat, 1, 1⟩
        (decimal_year_to_date (mkRat 4047 2)) ∧
      dateLE (decimal_year_to_date (mkRat 4047 2))
        ⟨(⌊(mkRat 4047 2 : ℚ)⌋).toNat + 1, 1, 1⟩) :=
  ⟨by rw [Rat.mkRat_eq_div]; norm_num,
   C4_normalizer_interval (mkRat 4047 2)
     (by rw [Rat.mkRat_eq_div]; norm_num)⟩

/-- The carry left over after forward-filling a list starting from carry
`c`: the last valid value, if any, else `c`. -/
def carry (c : Option ℚ) : List (Option ℚ) → Option ℚ
  | [] => c
  | none :: xs => carry c xs
  | some v :: xs => carry (some v) xs

theorem ffillAux_append (c : Option ℚ) (xs ys : List (Option ℚ)) :
    ffillAux c (xs ++ ys) = ffillAux c xs ++ ffillAux (carry c xs) ys := by
  induction xs generalizing c with
  | nil => rfl
  | cons x xs ih =>
    cases x <;> simp [ffillAux, carry, ih]

theorem ffillAux_length (c : Option ℚ) (l : List (Option ℚ)) :
    (ffillAux c l).length = l.length := by
  induction l generalizing c with
  | nil => rfl
  | cons x xs ih =>
    cases x <;> simp [ffillAux, ih]

theorem ffillAux_all_some (c : Option ℚ) (l : List (Option ℚ))
    (h : ∀ y ∈ l, y ≠ none) : ffillAux c l = l := by
  induction l generalizing c with
  | nil => rfl
  | cons x xs ih =>
    cases x with
    | none => exact absurd rfl (h none (List.mem_cons_self _ _))
    | some v =>
      simp only [ffillAux]
      rw [ih (some v) fun y hy => h y (List.mem_cons_of_mem _ hy)]

theorem mem_ffillAux_ne_none (c : Option ℚ) (l : List (Option ℚ))
    (hc : c ≠ none) : ∀ y ∈ ffillAux c l, y ≠ none := by
  induction l generalizing c with
  | nil => intro y hy; cases hy
  | cons x xs ih =>
    cases x with
    | none =>
      intro y hy
      rcases List.mem_cons.mp hy with h | h
      · exact h ▸ hc
      · exact ih c hc y h
    | some v =>
      intro y hy
      rcases List.mem_cons.mp hy with h | h
      · simp [h]
      · exact ih (some v) (by simp) y h

theorem carry_ne_none (c : Option ℚ) (l : List (Option ℚ)) (hc : c ≠ none) :
    carry c l ≠ none := by
  induction l generalizing c with
  | nil => exact hc
  | cons x xs ih =>
    cases x with
    | none => exact ih c hc
    | some v => exact ih (some v) (by simp)

theorem carry_ne_none_of_mem (c : Option ℚ) (l : List (Option ℚ)) (v : ℚ)
    (hv : some v ∈ l) : carry c l ≠ none := by
  induction l generalizing c with
  | nil => cases hv
  | cons x xs ih =>
    cases x with
    | none =>
      rcases List.mem_cons.mp hv with h | h
      · cases h
      · exact ih c h
    | some w =>
      rcases List.mem_cons.mp hv with h | h
      · exact carry_ne_none (some w) xs (by simp)
      · exact ih (some w) h

/-- Decomposition of the forward pass: after the first valid value,
every entry of the forward-filled list is valid. -/
theorem ffill_struct (l : List (Option ℚ)) (v : ℚ) (hv : some v ∈ l) :
    ∃ (k : ℕ) (w : ℚ) (rest : List (Option ℚ)),
      ffill l = List.replicate k none ++ some w :: rest ∧
      ∀ y ∈ rest, y ≠ none := by
  induction l with
  | nil => cases hv
  | cons x xs ih =>
    cases x with
    | none =>
      have hv' : some v ∈ xs := by
        rcases List.mem_cons.mp hv with h | h
        · cases h
        · exact h
      obtain ⟨k, w, rest, heq, hrest⟩ := ih hv'
      refine ⟨k + 1, w, rest, ?_, hrest⟩
      simp only [ffill, ffillAux] at heq ⊢
      rw [heq, List.replicate_succ]
      rfl
    | some x =>
      refine ⟨0, x, ffillAux (some x) xs, rfl, ?_⟩
      exact mem_ffillAux_ne_none (some x) xs (by simp)

/-- Backward pass over a list whose tail beyond the leading gap is fully
valid: the gap is filled and everything stays valid. -/
theorem fillCO2_no_none (l : List (Option ℚ)) (v : ℚ) (hv : some v ∈ l) :
    ∀ y ∈ fillCO2 l, y ≠ none := by
  obtain ⟨k, w, rest, heq, hrest⟩ := ffill_struct l v hv
  intro y hy
  unfold fillCO2 bfill at hy
  rw [heq, List.reverse_append, List.reverse_replicate] at hy
  rw [ffillAux_append] at hy
  have hall : ∀ z ∈ (some w :: rest).reverse, z ≠ none := by
    intro z hz
    rcases List.mem_cons.mp (List.mem_reverse.mp hz) with h | h
    · simp [h]
    · exact hrest z h
  rw [ffillAux_all_some _ _ hall] at hy
  have hc' : carry none (some w :: rest).reverse ≠ none :=
    carry_ne_none_of_mem _ _ w (List.mem_reverse.mpr (List.mem_cons_self _ _))
  rw [List.mem_reverse, List.mem_append] at hy
  rcases hy with h | h
  · rcases List.mem_cons.mp (List.mem_reverse.mp h) with h' | h'
    · simp [h']
    · exact hrest y h'
  · exact mem_ffillAux_ne_none _ _ hc' y h

/-- Filled values at and around a single interior gap. -/
theorem fillCO2_gap (l1 l2 : List (Option ℚ)) (a b : ℚ) :
    ∃ pre : List (Option ℚ), pre.length = l1.length ∧
      fillCO2 (l1 ++ some a :: none :: some b :: l2) =
        pre ++ some a :: some a :: some b :: ffillAux (some b) l2 := by
  have hA : ffill (l1 ++ some a :: none :: some b :: l2) =
      ffillAux none l1 ++
        some a :: some a :: some b :: ffillAux (some b) l2 := by
    unfold ffill
    rw [ffillAux_append]
    simp [ffillAux]
  have hT : ∀ z ∈ (some a :: some a :: some b :: ffillAux (some b) l2),
      z ≠ none := by
    intro z hz
    rcases List.mem_cons.mp hz with h | h
    · simp [h]
    rcases List.mem_cons.mp h with h' | h'
    · simp [h']
    rcases List.mem_cons.mp h' with h'' | h''
    · simp [h'']
    · exact mem_ffillAux_ne_none (some b) l2 (by simp) z h''
  refine ⟨(ffillAux (carry none
      (some a :: some a :: some b :: ffillAux (some b) l2).reverse)
      (ffillAux none l1).reverse).reverse, ?_, ?_⟩
  · simp [ffillAux_length]
  · unfold fillCO2 bfill
    rw [hA, List.reverse_append, ffillAux_append,
      ffillAux_all_some _ _ (fun z hz => hT z (List.mem_reverse.mp hz)),
      List.reverse_append, List.reverse_reverse]

/-- C3 counterexample: the request body `{steps: 0}` is accepted by the
`ForecastQuery` schema with `steps = 0`, so an accepted request need not
satisfy `steps ≥ 1` — the schema declares `steps: int = 12` with no
positivity constraint. -/
theorem C3_counterexample :
    (forecastQueryOfBody (some 0)).steps = 0 ∧
    ¬ (1 ≤ (forecastQueryOfBody (some 0)).steps) := by
  constructor
  · rfl
  · decide

/-- C3 (amended): the forecast request's `steps` field defaults to 12
when absent, and any integer — positive or not — is accepted unchanged;
the schema performs no positivity validation. -/
theorem C3_steps_default :
    (forecastQueryOfBody none).steps = 12 ∧
    ∀ s : ℤ, (forecastQueryOfBody (some s)).steps = s :=
  ⟨rfl, fun _ => rfl⟩

/-- C6: with the model reference unset every request fails with the 503
"Model is not loaded or ready." condition, independently of any model;
with the reference set, the outcome is exactly determined by handing the
request's `steps` to the underlying model and formatting what it
returns. -/
theorem C6_service_gate (m : Model) (q : ForecastQuery) :
    get_forecast none q =
      Except.error ⟨503, "Model is not loaded or ready."⟩ ∧
    get_forecast (some m) q =
      (match m q.steps with
       | Except.error e => Except.error ⟨500, "Prediction error: " ++ e⟩
       | Except.ok ps =>
         match formatForecast ps with
         | Except.error e => Except.error ⟨500, "Prediction error: " ++ e⟩
         | Except.ok r => Except.ok r) :=
  ⟨rfl, rfl⟩

/-- C8: when the model reference is set and the underlying model's
forecast raises, the endpoint fails with status 500 and a detail that
carries the underlying error message. -/
theorem C8_prediction_error (m : Model) (q : ForecastQuery) (e : String)
    (h : m q.steps = Except.error e) :
    get_forecast (some m) q =
      Except.error ⟨500, "Prediction error: " ++ e⟩ := by
  show (match m q.steps with
        | Except.error e =>
          Except.error (⟨500, "Prediction error: " ++ e⟩ : HTTPError)
        | Except.ok ps =>
          match formatForecast ps with
          | Except.error e =>
            Except.error (⟨500, "Prediction error: " ++ e⟩ : HTTPError)
          | Except.ok r => Except.ok r) =
      Except.error ⟨500, "Prediction error: " ++ e⟩
  rw [h]

/-- C5: in a concentration column with a single gap strictly between two
valid values `a` (before) and `b` (after), forward-fill then
backward-fill leaves the neighbours untouched and fills the gap with the
preceding value `a`, not the following `b`; and in any column containing
at least one valid value, no missing entry survives the two fills. -/
theorem C5_fill_repair (l1 l2 : List (Option ℚ)) (a b : ℚ)
    (l : List (Option ℚ)) (v : ℚ) (hv : some v ∈ l) :
    ((fillCO2 (l1 ++ some a :: none :: some b :: l2))[l1.length]?
        = some (some a) ∧
      (fillCO2 (l1 ++ some a :: none :: some b :: l2))[l1.length + 1]?
        = some (some a) ∧
      (fillCO2 (l1 ++ some a :: none :: some b :: l2))[l1.length + 2]?
        = some (some b)) ∧
    ∀ y ∈ fillCO2 l, y ≠ none := by
  obtain ⟨pre, hlen, heq⟩ := fillCO2_gap l1 l2 a b
  refine ⟨⟨?_, ?_, ?_⟩, fillCO2_no_none l v hv⟩ <;>
    rw [heq, List.getElem?_append_right (by omega)]
  · have h0 : l1.length - pre.length = 0 := by omega
    rw [h0]
    rfl
  · have h1 : l1.length + 1 - pre.length = 1 := by omega
    rw [h1]
    rfl
  · have h2 : l1.length + 2 - pre.length = 2 := by omega
    rw [h2]
    simp

/-- C5 witness: the gap in `[some 1, none, some 2]` is repaired to
`some 1`, and the column `[none, some 37, none]` is left with no missing
entry. -/
theorem C5_witness :
    some (37 : ℚ) ∈ [none, some (37 : ℚ), none] ∧
    (((fillCO2 ([] ++ some (1 : ℚ) :: none :: some (2 : ℚ) :: []))[0]?
        = some (some (1 : ℚ)) ∧
      (fillCO2 ([] ++ some (1 : ℚ) :: none :: some (2 : ℚ) :: []))[1]?
        = some (some (1 : ℚ)) ∧
      (fillCO2 ([] ++ some (1 : ℚ) :: none :: some (2 : ℚ) :: []))[2]?
        = some (some (2 : ℚ))) ∧
    ∀ y ∈ fillCO2 [none, some (37 : ℚ), none], y ≠ none) :=
  ⟨by decide,
   C5_fill_repair [] [] 1 2 [none, some (37 : ℚ), none] 37 (by decide)⟩

/-- C9: forward/backward filling happens on the concentration column
before rows with an unparseable fractional year are dropped, so a valid
concentration travels out of a row that is subsequently dropped: in both
tables below the only surviving row had no raw concentration of its own
and ends up carrying 320, the value of the dropped invalid-date row
(via backward fill in the first table, forward fill in the second). -/
theorem C9_fill_precedes_drop :
    prepDF [⟨some (mkRat 1960042 1000), none⟩, ⟨none, some (320 : ℚ)⟩] =
      [⟨⟨1960, 1, 16⟩, (320 : ℚ)⟩] ∧
    prepDF [⟨none, some (320 : ℚ)⟩, ⟨some (mkRat 1960042 1000), none⟩] =
      [⟨⟨1960, 1, 16⟩, (320 : ℚ)⟩] := by
  constructor <;>
    simp [prepDF, fillCO2, ffill, bfill, ffillAux, dyd_1960_042]

/-- C8 witness: a model that raises "Boom" on every horizon produces the
500 condition with the message passed through. -/
theorem C8_witness :
    (fun _ => Except.error "Boom" : Model) (12 : ℤ) =
      Except.error "Boom" ∧
    get_forecast (some (fun _ => Except.error "Boom")) ⟨12⟩ =
      Except.error ⟨500, "Prediction error: " ++ "Boom"⟩ :=
  ⟨rfl, C8_prediction_error (fun _ => Except.error "Boom") ⟨12⟩ "Boom" rfl⟩

/-! ### Dictionary and index-extremum lemmas for the forecast endpoint -/

theorem mem_dictInsert (k : String) (v : ℚ) (d : List (String × ℚ))
    (kv : String × ℚ) (h : kv ∈ dictInsert k v d) :
    kv = (k, v) ∨ kv ∈ d := by
  induction d with
  | nil =>
    rcases List.mem_cons.mp h with h' | h'
    · exact Or.inl h'
    · cases h'
  | cons hd tl ih =>
    by_cases hk : hd.1 = k
    · rw [dictInsert, if_pos hk] at h
      rcases List.mem_cons.mp h with h' | h'
      · exact Or.inl h'
      · exact Or.inr (List.mem_cons_of_mem _ h')
    · rw [dictInsert, if_neg hk] at h
      rcases List.mem_cons.mp h with h' | h'
      · exact Or.inr (h' ▸ List.mem_cons_self _ _)
      · rcases ih h' with h'' | h''
        · exact Or.inl h''
        · exact Or.inr (List.mem_cons_of_mem _ h'')

theorem key_mem_dictInsert (k : String) (v : ℚ) (d : List (String × ℚ)) :
    k ∈ (dictInsert k v d).map Prod.fst := by
  induction d with
  | nil => simp [dictInsert]
  | cons hd tl ih =>
    by_cases hk : hd.1 = k
    · rw [dictInsert, if_pos hk]
      simp
    · rw [dictInsert, if_neg hk]
      simpa using Or.inr (by simpa using ih)

theorem keys_dictInsert_mono (k : String) (v : ℚ) (d : List (String × ℚ))
    (k' : String) (h : k' ∈ d.map Prod.fst) :
    k' ∈ (dictInsert k v d).map Prod.fst := by
  induction d with
  | nil => cases h
  | cons hd tl ih =>
    by_cases hk : hd.1 = k
    · rw [dictInsert, if_pos hk]
      rcases List.mem_cons.mp h with h' | h'
      · simp [h', hk]
      · simpa using Or.inr (by simpa using h')
    · rw [dictInsert, if_neg hk]
      rcases List.mem_cons.mp h with h' | h'
      · simp [h']
      · simpa using Or.inr (by simpa using ih h')

theorem foldlDict_mem (ps : List (DateT × ℚ)) (acc : List (String × ℚ))
    (kv : String × ℚ)
    (h : kv ∈ ps.foldl (fun d p => dictInsert (isoDate p.1) (round2 p.2) d) acc) :
    kv ∈ acc ∨ ∃ p ∈ ps, kv.1 = isoDate p.1 ∧ kv.2 = round2 p.2 := by
  induction ps generalizing acc with
  | nil => exact Or.inl h
  | cons p ps ih =>
    rcases ih _ h with h' | h'
    · rcases mem_dictInsert _ _ _ _ h' with h'' | h''
      · refine Or.inr ⟨p, List.mem_cons_self _ _, ?_, ?_⟩ <;> simp [h'']
      · exact Or.inl h''
    · obtain ⟨p', hp', h1, h2⟩ := h'
      exact Or.inr ⟨p', List.mem_cons_of_mem _ hp', h1, h2⟩

theorem foldlDict_keys_mono (ps : List (DateT × ℚ)) (acc : List (String × ℚ))
    (k : String) (h : k ∈ acc.map Prod.fst) :
    k ∈ (ps.foldl (fun d p => dictInsert (isoDate p.1) (round2 p.2) d)
        acc).map Prod.fst := by
  induction ps generalizing acc with
  | nil => exact h
  | cons p ps ih => exact ih _ (keys_dictInsert_mono _ _ _ _ h)

theorem foldlDict_keys (ps : List (DateT × ℚ)) (acc : List (String × ℚ))
    (p : DateT × ℚ) (hp : p ∈ ps) :
    isoDate p.1 ∈ (ps.foldl (fun d p => dictInsert (isoDate p.1) (round2 p.2) d)
        acc).map Prod.fst := by
  induction ps generalizing acc with
  | nil => cases hp
  | cons q ps ih =>
    rcases List.mem_cons.mp hp with h | h
    · subst h
      exact foldlDict_keys_mono ps _ _ (key_mem_dictInsert _ _ _)
    · exact ih _ h

theorem dateLE_refl (a : DateT) : dateLE a a := by
  simp [dateLE]

theorem dateLE_trans (a b c : DateT) (h1 : dateLE a b) (h2 : dateLE b c) :
    dateLE a c := by
  simp only [dateLE] at h1 h2 ⊢
  omega

theorem dateLE_total (a b : DateT) : dateLE a b ∨ dateLE b a := by
  simp only [dateLE]
  omega

theorem dateMinL_le_left (d x : DateT) : dateLE (dateMinL d x) d := by
  unfold dateMinL
  split_ifs with h
  · exact dateLE_refl d
  · rcases dateLE_total d x with h' | h'
    · exact absurd h' h
    · exact h'

theorem dateMinL_le_right (d x : DateT) : dateLE (dateMinL d x) x := by
  unfold dateMinL
  split_ifs with h
  · exact h
  · exact dateLE_refl x

theorem dateMinL_cases (d x : DateT) : dateMinL d x = d ∨ dateMinL d x = x := by
  unfold dateMinL
  split_ifs
  · exact Or.inl rfl
  · exact Or.inr rfl

theorem dateMaxL_ge_left (d x : DateT) : dateLE d (dateMaxL d x) := by
  unfold dateMaxL
  split_ifs with h
  · exact dateLE_refl d
  · rcases dateLE_total d x with h' | h'
    · exact h'
    · exact absurd h' h

theorem dateMaxL_ge_right (d x : DateT) : dateLE x (dateMaxL d x) := by
  unfold dateMaxL
  split_ifs with h
  · exact h
  · exact dateLE_refl x

theorem dateMaxL_cases (d x : DateT) : dateMaxL d x = d ∨ dateMaxL d x = x := by
  unfold dateMaxL
  split_ifs
  · exact Or.inl rfl
  · exact Or.inr rfl

theorem foldl_dateMinL_le (ds : List DateT) (d : DateT) :
    dateLE (ds.foldl dateMinL d) d ∧
    ∀ e ∈ ds, dateLE (ds.foldl dateMinL d) e := by
  induction ds generalizing d with
  | nil => exact ⟨dateLE_refl d, fun e he => absurd he (List.not_mem_nil e)⟩
  | cons x ds ih =>
    rw [List.foldl_cons]
    obtain ⟨h1, h2⟩ := ih (dateMinL d x)
    refine ⟨dateLE_trans _ _ _ h1 (dateMinL_le_left d x), fun e he => ?_⟩
    rcases List.mem_cons.mp he with h' | h'
    · subst h'
      exact dateLE_trans _ _ _ h1 (dateMinL_le_right d e)
    · exact h2 e h'

theorem foldl_dateMinL_mem (ds : List DateT) (d : DateT) :
    ds.foldl dateMinL d = d ∨ ds.foldl dateMinL d ∈ ds := by
  induction ds generalizing d with
  | nil => exact Or.inl rfl
  | cons x ds ih =>
    rw [List.foldl_cons]
    rcases ih (dateMinL d x) with h | h
    · rcases dateMinL_cases d x with h' | h'
      · exact Or.inl (h.trans h')
      · exact Or.inr (List.mem_cons.mpr (Or.inl (h.trans h')))
    · exact Or.inr (List.mem_cons_of_mem _ h)

theorem foldl_dateMaxL_ge (ds : List DateT) (d : DateT) :
    dateLE d (ds.foldl dateMaxL d) ∧
    ∀ e ∈ ds, dateLE e (ds.foldl dateMaxL d) := by
  induction ds generalizing d with
  | nil => exact ⟨dateLE_refl d, fun e he => absurd he (List.not_mem_nil e)⟩
  | cons x ds ih =>
    rw [List.foldl_cons]
    obtain ⟨h1, h2⟩ := ih (dateMaxL d x)
    refine ⟨dateLE_trans _ _ _ (dateMaxL_ge_left d x) h1, fun e he => ?_⟩
    rcases List.mem_cons.mp he with h' | h'
    · subst h'
      exact dateLE_trans _ _ _ (dateMaxL_ge_right d e) h1
    · exact h2 e h'

theorem foldl_dateMaxL_mem (ds : List DateT) (d : DateT) :
    ds.foldl dateMaxL d = d ∨ ds.foldl dateMaxL d ∈ ds := by
  induction ds generalizing d with
  | nil => exact Or.inl rfl
  | cons x ds ih =>
    rw [List.foldl_cons]
    rcases ih (dateMaxL d x) with h | h
    · rcases dateMaxL_cases d x with h' | h'
      · exact Or.inl (h.trans h')
      · exact Or.inr (List.mem_cons.mpr (Or.inl (h.trans h')))
    · exact Or.inr (List.mem_cons_of_mem _ h)

/-- Outcomes of the endpoint with a loaded model, split along the
underlying model call and the formatting step. -/
theorem get_forecast_ok_iff (m : Model) (q : ForecastQuery)
    (r : ForecastResult) :
    get_forecast (some m) q = Except.ok r ↔
      ∃ ps, m q.steps = Except.ok ps ∧ formatForecast ps = Except.ok r := by
  unfold get_forecast
  cases hm : m q.steps with
  | error e => simp [hm]
  | ok ps =>
    cases hf : formatForecast ps with
    | error e => simp [hm, hf]
    | ok r' => simp [hm, hf, eq_comm]

/-- C7: in every successful forecast response, each entry of the
`predictions` mapping is the 2-decimal rounding of one of the underlying
model's predicted values keyed by that prediction's date in ISO
`YYYY-MM-DD` form, and every model prediction date appears among the
keys. -/
theorem C7_rounded_iso_predictions (m : Model) (q : ForecastQuery)
    (ps : List (DateT × ℚ)) (r : ForecastResult)
    (hm : m q.steps = Except.ok ps)
    (hr : get_forecast (some m) q = Except.ok r) :
    (∀ kv ∈ r.predictions,
        ∃ p ∈ ps, kv.1 = isoDate p.1 ∧ kv.2 = round2 p.2) ∧
    (∀ p ∈ ps, isoDate p.1 ∈ r.predictions.map Prod.fst) := by
  obtain ⟨ps', hm', hf⟩ := (get_forecast_ok_iff m q r).mp hr
  rw [hm] at hm'
  obtain rfl : ps = ps' := by
    cases hm'
    rfl
  cases ps with
  | nil => cases hf
  | cons p rest =>
    unfold formatForecast at hf
    obtain rfl : r = _ := by
      cases hf
      rfl
    constructor
    · intro kv hkv
      have := foldlDict_mem (p :: rest) [] kv hkv
      rcases this with h | h
      · cases h
      · exact h
    · intro p' hp'
      exact foldlDict_keys (p :: rest) [] p' hp'

/-- Evaluation of Python `round(316.973, 2)` in the embedding. -/
theorem round2_316973 : round2 (mkRat 316973 1000) = mkRat 31697 100 := by
  unfold round2
  rw [show (mkRat 316973 1000 : ℚ) * 100 = (316973 : ℚ)/10 from by
    rw [Rat.mkRat_eq_div]; push_cast; norm_num]
  rw [roundHalfEven_eval ((316973 : ℚ)/10) 31697
    (by rw [Rat.floor_def']; norm_num)
    (by
      rw [show (316973 : ℚ)/10 + 1/2 = (316978 : ℚ)/10 from by norm_num,
        Rat.floor_def']
      norm_num)]
  rw [Rat.mkRat_eq_div]
  push_cast
  norm_num

/-- C7 witness: a model predicting 316.973 for February 1, 1960 produces
the single prediction `"1960-02-01" ↦ 316.97`. -/
theorem C7_witness :
    (fun _ => Except.ok [(⟨1960, 2, 1⟩, mkRat 316973 1000)] : Model)
        (⟨1⟩ : ForecastQuery).steps =
      Except.ok [(⟨1960, 2, 1⟩, mkRat 316973 1000)] ∧
    get_forecast
        (some (fun _ => Except.ok [(⟨1960, 2, 1⟩, mkRat 316973 1000)]))
        ⟨1⟩ =
      Except.ok ⟨"1960-02-01", "1960-02-01",
        [("1960-02-01", mkRat 31697 100)]⟩ ∧
    ((∀ kv ∈ (⟨"1960-02-01", "1960-02-01",
          [("1960-02-01", mkRat 31697 100)]⟩ : ForecastResult).predictions,
        ∃ p ∈ [((⟨1960, 2, 1⟩ : DateT), mkRat 316973 1000)],
          kv.1 = isoDate p.1 ∧ kv.2 = round2 p.2) ∧
      (∀ p ∈ [((⟨1960, 2, 1⟩ : DateT), mkRat 316973 1000)],
        isoDate p.1 ∈ ((⟨"1960-02-01", "1960-02-01",
          [("1960-02-01", mkRat 31697 100)]⟩ : ForecastResult)).predictions.map
            Prod.fst)) := by
  have hfc : get_forecast
      (some (fun _ => Except.ok [(⟨1960, 2, 1⟩, mkRat 316973 1000)]))
      ⟨1⟩ =
      Except.ok ⟨"1960-02-01", "1960-02-01",
        [("1960-02-01", mkRat 31697 100)]⟩ := by
    unfold get_forecast formatForecast
    simp [predictionsDict, dictInsert, round2_316973, dateMinL, dateMaxL]
    decide
  exact ⟨rfl, hfc,
    C7_rounded_iso_predictions _ ⟨1⟩ [(⟨1960, 2, 1⟩, mkRat 316973 1000)] _
      rfl hfc⟩

/-- The formatting step on a nonempty series, as an explicit record. -/
theorem formatForecast_cons (p : DateT × ℚ) (rest : List (DateT × ℚ)) :
    formatForecast (p :: rest) = Except.ok
      { forecast_start_date := isoDate ((rest.map (·.1)).foldl dateMinL p.1)
        forecast_end_date := isoDate ((rest.map (·.1)).foldl dateMaxL p.1)
        predictions := predictionsDict (p :: rest) } := rfl

/-- C10: in every successful forecast response, `forecast_start_date`
and `forecast_end_date` are the ISO renderings of the least and greatest
prediction dates, and these dates appear among the keys of the
`predictions` mapping while every key's date lies between them. -/
theorem C10_start_end_bounds (m : Model) (q : ForecastQuery)
    (ps : List (DateT × ℚ)) (r : ForecastResult)
    (hm : m q.steps = Except.ok ps)
    (hr : get_forecast (some m) q = Except.ok r) :
    ∃ dmin dmax : DateT,
      isoDate dmin ∈ r.predictions.map Prod.fst ∧
      isoDate dmax ∈ r.predictions.map Prod.fst ∧
      r.forecast_start_date = isoDate dmin ∧
      r.forecast_end_date = isoDate dmax ∧
      ∀ kv ∈ r.predictions,
        ∃ d, kv.1 = isoDate d ∧ dateLE dmin d ∧ dateLE d dmax := by
  obtain ⟨ps', hm', hf⟩ := (get_forecast_ok_iff m q r).mp hr
  rw [hm] at hm'
  obtain rfl : ps = ps' := by
    cases hm'
    rfl
  cases ps with
  | nil => cases hf
  | cons p rest =>
    rw [formatForecast_cons] at hf
    have hre := Except.ok.inj hf
    obtain ⟨rs, re, rp⟩ := r
    rw [ForecastResult.mk.injEq] at hre
    obtain ⟨h3, h4, h5⟩ := hre
    subst h3
    subst h4
    subst h5
    refine ⟨(rest.map (·.1)).foldl dateMinL p.1,
      (rest.map (·.1)).foldl dateMaxL p.1, ?_, ?_, ?_, ?_, ?_⟩
    · rcases foldl_dateMinL_mem (rest.map (·.1)) p.1 with h | h
      · rw [h]
        exact foldlDict_keys (p :: rest) [] p (List.mem_cons_self _ _)
      · obtain ⟨p', hp', hq⟩ := List.mem_map.mp h
        rw [← hq]
        exact foldlDict_keys (p :: rest) [] p' (List.mem_cons_of_mem _ hp')
    · rcases foldl_dateMaxL_mem (rest.map (·.1)) p.1 with h | h
      · rw [h]
        exact foldlDict_keys (p :: rest) [] p (List.mem_cons_self _ _)
      · obtain ⟨p', hp', hq⟩ := List.mem_map.mp h
        rw [← hq]
        exact foldlDict_keys (p :: rest) [] p' (List.mem_cons_of_mem _ hp')
    · rfl
    · rfl
    · intro kv hkv
      rcases foldlDict_mem (p :: rest) [] kv hkv with h | h
      · cases h
      · obtain ⟨p', hp', h1, _⟩ := h
        refine ⟨p'.1, h1, ?_, ?_⟩
        · rcases List.mem_cons.mp hp' with h' | h'
          · rw [h']
            exact (foldl_dateMinL_le (rest.map (·.1)) p.1).1
          · exact (foldl_dateMinL_le (rest.map (·.1)) p.1).2 p'.1
              (List.mem_map.mpr ⟨p', h', rfl⟩)
        · rcases List.mem_cons.mp hp' with h' | h'
          · rw [h']
            exact (foldl_dateMaxL_ge (rest.map (·.1)) p.1).1
          · exact (foldl_dateMaxL_ge (rest.map (·.1)) p.1).2 p'.1
              (List.mem_map.mpr ⟨p', h', rfl⟩)

/-- Evaluation of Python `round(317.0, 2)` and `round(318.2, 2)`. -/
theorem round2_317 : round2 (317 : ℚ) = (317 : ℚ) := by
  unfold round2
  rw [show (317 : ℚ) * 100 = ((31700 : ℤ) : ℚ) from by push_cast; norm_num]
  rw [roundHalfEven_eval (((31700 : ℤ) : ℚ)) 31700
    (by rw [ratFloor_eq_floor, Int.floor_intCast]; norm_num)
    (by
      rw [ratFloor_eq_floor,
        show ((31700 : ℤ) : ℚ) + 1/2 = 1/2 + ((31700 : ℤ) : ℚ) from by ring,
        Int.floor_add_int]
      norm_num)]
  push_cast
  norm_num

theorem round2_3182 : round2 (mkRat 3182 10) = mkRat 3182 10 := by
  unfold round2
  rw [show (mkRat 3182 10 : ℚ) * 100 = ((31820 : ℤ) : ℚ) from by
    rw [Rat.mkRat_eq_div]; push_cast; norm_num]
  rw [roundHalfEven_eval (((31820 : ℤ) : ℚ)) 31820
    (by rw [ratFloor_eq_floor, Int.floor_intCast]; norm_num)
    (by
      rw [ratFloor_eq_floor,
        show ((31820 : ℤ) : ℚ) + 1/2 = 1/2 + ((31820 : ℤ) : ℚ) from by ring,
        Int.floor_add_int]
      norm_num)]
  rw [Rat.mkRat_eq_div]
  push_cast
  norm_num

/-- C10 witness: a model predicting 317 for 1960-02-01 and 318.2 for
1960-03-01 yields a response whose start and end dates are the least and
greatest prediction dates in ISO form. -/
theorem C10_witness :
    (fun _ =>
        Except.ok [(⟨1960, 2, 1⟩, (317 : ℚ)), (⟨1960, 3, 1⟩, mkRat 3182 10)]
      : Model) (⟨2⟩ : ForecastQuery).steps =
      Except.ok [(⟨1960, 2, 1⟩, (317 : ℚ)), (⟨1960, 3, 1⟩, mkRat 3182 10)] ∧
    get_forecast
        (some (fun _ => Except.ok
          [(⟨1960, 2, 1⟩, (317 : ℚ)), (⟨1960, 3, 1⟩, mkRat 3182 10)]))
        ⟨2⟩ =
      Except.ok ⟨"1960-02-01", "1960-03-01",
        [("1960-02-01", (317 : ℚ)), ("1960-03-01", mkRat 3182 10)]⟩ ∧
    ∃ dmin dmax : DateT,
      isoDate dmin ∈
        [("1960-02-01", (317 : ℚ)), ("1960-03-01", mkRat 3182 10)].map
          Prod.fst ∧
      isoDate dmax ∈
        [("1960-02-01", (317 : ℚ)), ("1960-03-01", mkRat 3182 10)].map
          Prod.fst ∧
      ("1960-02-01" : String) = isoDate dmin ∧
      ("1960-03-01" : String) = isoDate dmax ∧
      ∀ kv ∈ [("1960-02-01", (317 : ℚ)), ("1960-03-01", mkRat 3182 10)],
        ∃ d, kv.1 = isoDate d ∧ dateLE dmin d ∧ dateLE d dmax := by
  have hfc : get_forecast
      (some (fun _ => Except.ok
        [(⟨1960, 2, 1⟩, (317 : ℚ)), (⟨1960, 3, 1⟩, mkRat 3182 10)]))
      ⟨2⟩ =
      Except.ok ⟨"1960-02-01", "1960-03-01",
        [("1960-02-01", (317 : ℚ)), ("1960-03-01", mkRat 3182 10)]⟩ := by
    unfold get_forecast formatForecast
    simp [predictionsDict, dictInsert, round2_317, round2_3182,
      dateMinL, dateMaxL, dateLE]
    decide
  exact ⟨rfl, hfc,
    C10_start_end_bounds _ ⟨2⟩
      [(⟨1960, 2, 1⟩, (317 : ℚ)), (⟨1960, 3, 1⟩, mkRat 3182 10)] _ rfl hfc⟩

/-! ### Month-start index lemmas for the reindexed series -/

theorem monthIndex_ymOfIndex (k : ℕ) :
    monthIndex (ymOfIndex k).1 (ymOfIndex k).2 = k := by
  unfold monthIndex ymOfIndex
  simp only
  omega

theorem monthStarts_day (a b : DateT) : ∀ d ∈ monthStarts a b, d.day = 1 := by
  intro d hd
  unfold monthStarts at hd
  obtain ⟨i, _, hi⟩ := List.mem_map.mp hd
  rw [← hi]

theorem ymOfIndex_month_bounds (k : ℕ) :
    1 ≤ (ymOfIndex k).2 ∧ (ymOfIndex k).2 ≤ 12 := by
  unfold ymOfIndex
  simp only
  omega

theorem monthStarts_chain (a b : DateT) :
    List.Chain' (fun d e : DateT =>
      monthIndex e.year e.month = monthIndex d.year d.month + 1)
      (monthStarts a b) := by
  unfold monthStarts
  rw [List.chain'_map]
  cases hn : (monthIndex b.year b.month + 1 -
      (if a.day = 1 then monthIndex a.year a.month
       else monthIndex a.year a.month + 1)) with
  | zero => simp
  | succ n =>
    rw [List.chain'_range_succ]
    intro i _
    dsimp only
    simp only [Nat.succ_eq_add_one]
    have h1 := monthIndex_ymOfIndex
      ((if a.day = 1 then monthIndex a.year a.month
        else monthIndex a.year a.month + 1) + i)
    have h2 := monthIndex_ymOfIndex
      ((if a.day = 1 then monthIndex a.year a.month
        else monthIndex a.year a.month + 1) + (i + 1))
    omega

theorem monthIndex_lt_dateLT (d e : DateT)
    (hdm : 1 ≤ d.month) (hem : e.month ≤ 12)
    (h : monthIndex d.year d.month < monthIndex e.year e.month) :
    dateLT d e := by
  unfold monthIndex at h
  simp only [dateLT]
  omega

theorem monthStarts_chain_lt (a b : DateT) :
    List.Chain' dateLT (monthStarts a b) := by
  unfold monthStarts
  rw [List.chain'_map]
  cases hn : (monthIndex b.year b.month + 1 -
      (if a.day = 1 then monthIndex a.year a.month
       else monthIndex a.year a.month + 1)) with
  | zero => simp
  | succ n =>
    rw [List.chain'_range_succ]
    intro i _
    refine monthIndex_lt_dateLT _ _ ?_ ?_ ?_
    · exact (ymOfIndex_month_bounds _).1
    · exact (ymOfIndex_month_bounds _).2
    · dsimp only
      simp only [Nat.succ_eq_add_one]
      have h1 := monthIndex_ymOfIndex
        ((if a.day = 1 then monthIndex a.year a.month
          else monthIndex a.year a.month + 1) + i)
      have h2 := monthIndex_ymOfIndex
        ((if a.day = 1 then monthIndex a.year a.month
          else monthIndex a.year a.month + 1) + (i + 1))
      omega

/-- C1 counterexample: a two-row table whose fractional years normalize
to January 16 and February 16, 1960 is accepted, yet the returned series
is the single month-start February 1, 1960 carrying NaN — so a
concentration value in the series is NaN and the series length (1)
differs from the number of distinct valid months in the source (2). -/
theorem C1_counterexample :
    load_and_prep_data
      [[none, none, none, some (mkRat 1960042 1000), some (mkRat 31697 100)],
       [none, none, none, some (mkRat 1960125 1000), some (mkRat 3175 10)]] =
      Except.ok ([(⟨1960, 2, 1⟩, none)],
        [⟨⟨1960, 1, 16⟩, mkRat 31697 100⟩,
         ⟨⟨1960, 2, 16⟩, mkRat 3175 10⟩]) ∧
    ((⟨1960, 2, 1⟩ : DateT), (none : Option ℚ)).2 = none ∧
    [((⟨1960, 2, 1⟩ : DateT), (none : Option ℚ))].length = 1 ∧
    distinctValidMonths
      [[none, none, none, some (mkRat 1960042 1000), some (mkRat 31697 100)],
       [none, none, none, some (mkRat 1960125 1000), some (mkRat 3175 10)]]
      = 2 := by
  refine ⟨?_, rfl, rfl, ?_⟩
  · unfold load_and_prep_data
    simp [prepDF, selectCols, fillCO2, ffill, bfill, ffillAux,
      dyd_1960_042, dyd_1960_125, asfreqMS, monthStarts, monthIndex,
      ymOfIndex, dateMinL, dateMaxL, dateLE, lookupDate]
    decide
  · unfold distinctValidMonths
    simp [prepDF, selectCols, fillCO2, ffill, bfill, ffillAux,
      dyd_1960_042, dyd_1960_125]

/-- C1 (amended): for every accepted source table the returned series is
nonempty, every index entry is a month-start, consecutive index entries
are exactly one calendar month apart (hence the index is strictly
increasing with no missing month in its span), and the value at each
index date is the cleaned concentration at that exact date when it
occurs among the normalized dates and NaN otherwise; moreover the index
is exactly the list of month-starts between the minimum and maximum
normalized dates `lo` and `hi` of the cleaned observations, so the
series' length equals the number of month-starts in `[lo, hi]`. Values
need not all be non-NaN, and the length need not equal the number of
distinct valid months. -/
theorem C1_amended_monthly_index (table : List (List (Option ℚ)))
    (ts : List (DateT × Option ℚ)) (df : List Obs)
    (h : load_and_prep_data table = Except.ok (ts, df)) :
    ts ≠ [] ∧
    (∀ p ∈ ts, p.1.day = 1) ∧
    List.Chain' (fun p r : DateT × Option ℚ =>
      monthIndex r.1.year r.1.month = monthIndex p.1.year p.1.month + 1) ts ∧
    (ts.map Prod.fst).Pairwise dateLT ∧
    (∀ p ∈ ts, p.2 = lookupDate df p.1) ∧
    ∃ lo hi : DateT,
      lo ∈ df.map (·.date) ∧
      hi ∈ df.map (·.date) ∧
      (∀ d ∈ df.map (·.date), dateLE lo d ∧ dateLE d hi) ∧
      ts.map Prod.fst = monthStarts lo hi ∧
      ts.length = (monthStarts lo hi).length := by
  simp only [load_and_prep_data] at h
  cases hts : asfreqMS (prepDF (table.map selectCols)) with
  | nil =>
    rw [hts] at h
    cases h
  | cons hd tl =>
    rw [hts] at h
    obtain ⟨h1, h2⟩ := Prod.ext_iff.mp (Except.ok.inj h)
    subst h1
    subst h2
    cases hdf : prepDF (table.map selectCols) with
    | nil =>
      rw [hdf] at hts
      cases hts
    | cons o rest =>
      rw [hdf] at hts
      simp only [asfreqMS] at hts
      rw [← hts]
      have hday := monthStarts_day ((rest.map (·.date)).foldl dateMinL o.date)
        ((rest.map (·.date)).foldl dateMaxL o.date)
      have hchain := monthStarts_chain
        ((rest.map (·.date)).foldl dateMinL o.date)
        ((rest.map (·.date)).foldl dateMaxL o.date)
      have hmap : (List.map (fun d =>
          (d, lookupDate (o :: rest) d))
            (monthStarts ((rest.map (·.date)).foldl dateMinL o.date)
              ((rest.map (·.date)).foldl dateMaxL o.date))).map Prod.fst =
          monthStarts ((rest.map (·.date)).foldl dateMinL o.date)
            ((rest.map (·.date)).foldl dateMaxL o.date) := by
        rw [List.map_map]
        exact List.map_id _
      refine ⟨?_, ?_, ?_, ?_, ?_, ?_⟩
      · rw [hts]
        simp
      · intro p hp
        obtain ⟨d, hd, hpd⟩ := List.mem_map.mp hp
        rw [← hpd]
        exact hday d hd
      · rw [List.chain'_map]
        exact hchain
      · rw [hmap]
        rw [← List.chain'_iff_pairwise]
        exact monthStarts_chain_lt _ _
      · intro p hp
        obtain ⟨d, hd, hpd⟩ := List.mem_map.mp hp
        rw [← hpd]
      · refine ⟨(rest.map (·.date)).foldl dateMinL o.date,
          (rest.map (·.date)).foldl dateMaxL o.date, ?_, ?_, ?_, hmap, ?_⟩
        · rcases foldl_dateMinL_mem (rest.map (·.date)) o.date with hmem | hmem
          · simp only [List.map_cons]
            exact List.mem_cons.mpr (Or.inl hmem)
          · simp only [List.map_cons]
            exact List.mem_cons_of_mem _ hmem
        · rcases foldl_dateMaxL_mem (rest.map (·.date)) o.date with hmem | hmem
          · simp only [List.map_cons]
            exact List.mem_cons.mpr (Or.inl hmem)
          · simp only [List.map_cons]
            exact List.mem_cons_of_mem _ hmem
        · intro d hd
          simp only [List.map_cons] at hd
          rcases List.mem_cons.mp hd with hd' | hd'
          · rw [hd']
            exact ⟨(foldl_dateMinL_le (rest.map (·.date)) o.date).1,
              (foldl_dateMaxL_ge (rest.map (·.date)) o.date).1⟩
          · exact ⟨(foldl_dateMinL_le (rest.map (·.date)) o.date).2 d hd',
              (foldl_dateMaxL_ge (rest.map (·.date)) o.date).2 d hd'⟩
        · rw [List.length_map]

/-- C1 witness: the amended index properties hold on the accepted
two-row table normalizing to January 16 and February 16, 1960. -/
theorem C1_witness :
    load_and_prep_data
      [[none, none, none, some (mkRat 1960042 1000), some (mkRat 31697 100)],
       [none, none, none, some (mkRat 1960125 1000), some (mkRat 3175 10)]] =
      Except.ok ([(⟨1960, 2, 1⟩, none)],
        [⟨⟨1960, 1, 16⟩, mkRat 31697 100⟩,
         ⟨⟨1960, 2, 16⟩, mkRat 3175 10⟩]) ∧
    (([((⟨1960, 2, 1⟩ : DateT), (none : Option ℚ))] :
        List (DateT × Option ℚ)) ≠ [] ∧
      (∀ p ∈ ([((⟨1960, 2, 1⟩ : DateT), (none : Option ℚ))] :
        List (DateT × Option ℚ)), p.1.day = 1) ∧
      List.Chain' (fun p r : DateT × Option ℚ =>
        monthIndex r.1.year r.1.month = monthIndex p.1.year p.1.month + 1)
        [((⟨1960, 2, 1⟩ : DateT), (none : Option ℚ))] ∧
      (([((⟨1960, 2, 1⟩ : DateT), (none : Option ℚ))] :
        List (DateT × Option ℚ)).map Prod.fst).Pairwise dateLT ∧
      (∀ p ∈ ([((⟨1960, 2, 1⟩ : DateT), (none : Option ℚ))] :
          List (DateT × Option ℚ)),
        p.2 = lookupDate
          [⟨⟨1960, 1, 16⟩, mkRat 31697 100⟩,
           ⟨⟨1960, 2, 16⟩, mkRat 3175 10⟩] p.1) ∧
      ∃ lo hi : DateT,
        lo ∈ ([⟨⟨1960, 1, 16⟩, mkRat 31697 100⟩,
          ⟨⟨1960, 2, 16⟩, mkRat 3175 10⟩] : List Obs).map (·.date) ∧
        hi ∈ ([⟨⟨1960, 1, 16⟩, mkRat 31697 100⟩,
          ⟨⟨1960, 2, 16⟩, mkRat 3175 10⟩] : List Obs).map (·.date) ∧
        (∀ d ∈ ([⟨⟨1960, 1, 16⟩, mkRat 31697 100⟩,
            ⟨⟨1960, 2, 16⟩, mkRat 3175 10⟩] : List Obs).map (·.date),
          dateLE lo d ∧ dateLE d hi) ∧
        ([((⟨1960, 2, 1⟩ : DateT), (none : Option ℚ))] :
          List (DateT × Option ℚ)).map Prod.fst = monthStarts lo hi ∧
        ([((⟨1960, 2, 1⟩ : DateT), (none : Option ℚ))] :
          List (DateT × Option ℚ)).length = (monthStarts lo hi).length) := by
  have hload : load_and_prep_data
      [[none, none, none, some (mkRat 1960042 1000), some (mkRat 31697 100)],
       [none, none, none, some (mkRat 1960125 1000), some (mkRat 3175 10)]] =
      Except.ok ([(⟨1960, 2, 1⟩, none)],
        [⟨⟨1960, 1, 16⟩, mkRat 31697 100⟩,
         ⟨⟨1960, 2, 16⟩, mkRat 3175 10⟩]) := by
    unfold load_and_prep_data
    simp [prepDF, selectCols, fillCO2, ffill, bfill, ffillAux,
      dyd_1960_042, dyd_1960_125, asfreqMS, monthStarts, monthIndex,
      ymOfIndex, dateMinL, dateMaxL, dateLE, lookupDate]
    decide
  exact ⟨hload, C1_amended_monthly_index _ _ _ hload⟩

/-- C2: on the table whose single data row carries "1960.042" in column
3 and "316.97" in column 4, the cleaning pipeline produces exactly one
cleaned observation — date January 16, 1960 (within January 15 to
February 15) and concentration 316.97 — but `load_and_prep_data` itself
does not return it: the month-start reindex of a one-point series at a
mid-month date is empty, so the final logging line raises `ValueError`
(`NaT` has no `strftime`). -/
theorem C2_single_row :
    prepDF ([[none, none, none, some (mkRat 1960042 1000),
        some (mkRat 31697 100)]].map selectCols) =
      [⟨⟨1960, 1, 16⟩, mkRat 31697 100⟩] ∧
    dateLE ⟨1960, 1, 15⟩ ⟨1960, 1, 16⟩ ∧
    dateLE ⟨1960, 1, 16⟩ ⟨1960, 2, 15⟩ ∧
    load_and_prep_data
      [[none, none, none, some (mkRat 1960042 1000),
        some (mkRat 31697 100)]] =
      Except.error "NaTType does not support strftime" := by
  refine ⟨?_, by decide, by decide, ?_⟩
  · simp [prepDF, selectCols, fillCO2, ffill, bfill, ffillAux,
      dyd_1960_042]
  · unfold load_and_prep_data
    simp [prepDF, selectCols, fillCO2, ffill, bfill, ffillAux,
      dyd_1960_042, asfreqMS, monthStarts, monthIndex, ymOfIndex,
      dateMinL, dateMaxL, dateLE, lookupDate]

end CO2
